import Mathlib

/-!
Formal model of the bankAssistant voice-session protocol engine.

The definitions below are a shallow embedding of the Python sources:
* `src/backend/db/service.py`   — `DatabaseService.transfer_funds`, `_generate_payment_id`
* `src/backend/services/agents.py` — `AgentService` hand-off state machine
* `src/backend/ws/voice.py`     — `websocket_handler.handle_message` event loop

Python strings are modelled as `List Char`, Python ints as `Nat`/`Int`,
Python floats (account balances, transfer amounts) as exact rationals with
every arithmetic operation rounded to IEEE-754 binary64 (round to nearest,
ties to even), and Python dicts as association lists with
insert-or-replace semantics.
-/

namespace BankAssistant

/-- Python strings are modelled as lists of characters. -/
abbrev Str := List Char

/-! ### Decimal digits: embedding of `int(...)` on digit strings and `f"{n:03d}"` -/

/-- Numeric value of a decimal digit character. -/
def charDigitVal (c : Char) : Nat := c.toNat - 48

/-- Value of a decimal digit string, most significant digit first.
This is `int(s)` restricted to plain digit strings (signs, whitespace and
underscores never appear in the ids this program generates). -/
def digitsVal (s : Str) : Nat := s.foldl (fun acc c => acc * 10 + charDigitVal c) 0

/-- Decimal digit characters of `n`, most significant first.  The first
argument is fuel; `natToDigits` supplies enough for the computation to finish. -/
def natToDigitsAux : Nat → Nat → Str
  | 0, _ => []
  | _ + 1, 0 => []
  | fuel + 1, n + 1 => natToDigitsAux fuel ((n + 1) / 10) ++ [Nat.digitChar ((n + 1) % 10)]

/-- Decimal digit characters of `n`, most significant first (`str(n)` for `n > 0`). -/
def natToDigits (n : Nat) : Str := natToDigitsAux n n

/-- Embedding of `f"{n:03d}"`: left-pad a digit string with zeros to width 3. -/
def pad3 (s : Str) : Str := List.replicate (3 - s.length) '0' ++ s

/-- Embedding of `payment_id.replace("PAY", "")`: a single left-to-right pass
removing each non-overlapping occurrence of `"PAY"`, exactly as `str.replace`
with an empty replacement. -/
def stripPAY : Str → Str
  | [] => []
  | [c] => [c]
  | [c1, c2] => [c1, c2]
  | c1 :: c2 :: c3 :: rest =>
    if c1 = 'P' ∧ c2 = 'A' ∧ c3 = 'Y' then stripPAY rest
    else c1 :: stripPAY (c2 :: c3 :: rest)

/-- Embedding of `int(payment_id.replace("PAY", ""))`, returning `none` where Python raises
`ValueError` (the caller catches it and skips the key). -/
def parsePayNum (pid : Str) : Option Nat :=
  let s := stripPAY pid
  if s ≠ [] ∧ s.all Char.isDigit then some (digitsVal s) else none

/-- The `for payment_id in payments.keys()` loop of `_generate_payment_id`:
running maximum of the parsed numeric parts, starting from `max_num = 0`. -/
def payFold (acc : Nat) : List Str → Nat
  | [] => acc
  | k :: rest =>
    payFold (match parsePayNum k with | some n => max acc n | none => acc) rest

/-! ### Digit lemmas -/

theorem digitChar_isDigit : ∀ d, d < 10 → (Nat.digitChar d).isDigit = true := by decide

theorem digitChar_ne_P : ∀ d, d < 10 → Nat.digitChar d ≠ 'P' := by decide

theorem charDigitVal_digitChar : ∀ d, d < 10 → charDigitVal (Nat.digitChar d) = d := by decide

theorem digitsVal_append_singleton (l : Str) (c : Char) :
    digitsVal (l ++ [c]) = digitsVal l * 10 + charDigitVal c := by
  simp [digitsVal, List.foldl_append]

theorem natToDigitsAux_mem (fuel n : Nat) (c : Char) (h : c ∈ natToDigitsAux fuel n) :
    ∃ d, d < 10 ∧ c = Nat.digitChar d := by
  induction fuel generalizing n with
  | zero => simp [natToDigitsAux] at h
  | succ fuel ih =>
    match n with
    | 0 => simp [natToDigitsAux] at h
    | n + 1 =>
      rw [natToDigitsAux] at h
      rcases List.mem_append.mp h with h1 | h1
      · exact ih _ h1
      · refine ⟨(n + 1) % 10, Nat.mod_lt _ (by omega), ?_⟩
        simpa using h1

theorem natToDigitsAux_val (fuel n : Nat) (h : n ≤ fuel) :
    digitsVal (natToDigitsAux fuel n) = n := by
  induction fuel generalizing n with
  | zero =>
    have : n = 0 := by omega
    subst this; simp [natToDigitsAux, digitsVal]
  | succ fuel ih =>
    match n with
    | 0 => simp [natToDigitsAux, digitsVal]
    | n + 1 =>
      rw [natToDigitsAux, digitsVal_append_singleton,
        charDigitVal_digitChar _ (Nat.mod_lt _ (by omega)),
        ih ((n + 1) / 10) (by omega)]
      omega

theorem natToDigits_val (n : Nat) : digitsVal (natToDigits n) = n :=
  natToDigitsAux_val n n le_rfl

theorem natToDigits_ne_nil (n : Nat) (h : 1 ≤ n) : natToDigits n ≠ [] := by
  match n, h with
  | n + 1, _ => rw [natToDigits, natToDigitsAux]; simp

theorem digitsVal_replicate_zero (k : Nat) (s : Str) :
    digitsVal (List.replicate k '0' ++ s) = digitsVal s := by
  have hz : (List.replicate k '0').foldl (fun acc c => acc * 10 + charDigitVal c) 0 = 0 := by
    induction k with
    | zero => simp
    | succ k ih => simpa [List.replicate_succ, charDigitVal] using ih
  simp [digitsVal, List.foldl_append, hz]

theorem pad3_val (s : Str) : digitsVal (pad3 s) = digitsVal s :=
  digitsVal_replicate_zero _ s

theorem pad3_mem (s : Str) (c : Char) (h : c ∈ pad3 s) : c = '0' ∨ c ∈ s := by
  rcases List.mem_append.mp h with h1 | h1
  · exact Or.inl (List.eq_of_mem_replicate h1)
  · exact Or.inr h1

theorem pad3_ne_nil (s : Str) (h : s ≠ []) : pad3 s ≠ [] := by
  intro hc
  rcases List.append_eq_nil.mp hc with ⟨_, h2⟩
  exact h h2

theorem stripPAY_of_no_P (s : Str) (h : ∀ c ∈ s, c ≠ 'P') : stripPAY s = s := by
  induction s with
  | nil => rfl
  | cons c1 rest ih =>
    match rest with
    | [] => rfl
    | [c2] => rfl
    | c2 :: c3 :: rest' =>
      have hc1 : c1 ≠ 'P' := h c1 (by simp)
      rw [stripPAY, if_neg (by tauto)]
      have := ih (fun c hc => h c (List.mem_cons_of_mem _ hc))
      rw [this]

/-! ### Association lists: Python dict semantics (string keys) -/

/-- Dict lookup: `d.get(k)`. -/
def dlookup {α : Type} (k : Str) : List (Str × α) → Option α
  | [] => none
  | (k2, v) :: rest => if k = k2 then some v else dlookup k rest

/-- Dict write `d[k] = v`: replace in place if the key exists, else append. -/
def dinsert {α : Type} (k : Str) (v : α) : List (Str × α) → List (Str × α)
  | [] => [(k, v)]
  | (k2, v2) :: rest => if k = k2 then (k, v) :: rest else (k2, v2) :: dinsert k v rest

/-- In-place mutation of the value object held under a key (Python mutates the
dict entry through an alias, e.g. `from_acc["balance"] -= amount`). -/
def dmodify {α : Type} (k : Str) (f : α → α) : List (Str × α) → List (Str × α)
  | [] => []
  | (k2, v) :: rest => if k = k2 then (k2, f v) :: rest else (k2, v) :: dmodify k f rest

theorem dlookup_dinsert_self {α : Type} (k : Str) (v : α) (l : List (Str × α)) :
    dlookup k (dinsert k v l) = some v := by
  induction l with
  | nil => simp [dlookup, dinsert]
  | cons p rest ih =>
    obtain ⟨k2, v2⟩ := p
    by_cases h : k = k2 <;> simp [dlookup, dinsert, h, ih]

theorem dlookup_dinsert_ne {α : Type} (k k2 : Str) (v : α) (l : List (Str × α))
    (h : k ≠ k2) : dlookup k (dinsert k2 v l) = dlookup k l := by
  induction l with
  | nil => simp [dlookup, dinsert, h]
  | cons p rest ih =>
    obtain ⟨k3, v3⟩ := p
    by_cases h2 : k2 = k3
    · subst h2; simp [dlookup, dinsert, h]
    · by_cases h3 : k = k3 <;> simp [dlookup, dinsert, h2, h3, ih]

theorem dlookup_dmodify_self {α : Type} (k : Str) (f : α → α) (l : List (Str × α)) :
    dlookup k (dmodify k f l) = (dlookup k l).map f := by
  induction l with
  | nil => simp [dlookup, dmodify]
  | cons p rest ih =>
    obtain ⟨k2, v2⟩ := p
    by_cases h : k = k2 <;> simp [dlookup, dmodify, h, ih]

theorem dlookup_dmodify_ne {α : Type} (k k2 : Str) (f : α → α) (l : List (Str × α))
    (h : k ≠ k2) : dlookup k (dmodify k2 f l) = dlookup k l := by
  induction l with
  | nil => simp [dlookup, dmodify]
  | cons p rest ih =>
    obtain ⟨k3, v3⟩ := p
    by_cases h2 : k2 = k3
    · subst h2; simp [dlookup, dmodify, h]
    · by_cases h3 : k = k3 <;> simp [dlookup, dmodify, h2, h3, ih]

theorem dlookup_mem_keys {α : Type} (k : Str) (v : α) (l : List (Str × α))
    (h : dlookup k l = some v) : k ∈ l.map Prod.fst := by
  induction l with
  | nil => simp [dlookup] at h
  | cons p rest ih =>
    obtain ⟨k2, v2⟩ := p
    by_cases h2 : k = k2
    · subst h2
      rw [List.map_cons]
      exact List.mem_cons_self _ _
    · rw [dlookup, if_neg h2] at h
      rw [List.map_cons]
      exact List.mem_cons_of_mem _ (ih h)

/-! ### IEEE-754 binary64 arithmetic: the semantics of Python `float`

Balances (`models.Account.balance: float`) and transfer amounts
(`amount: float`) are Python floats, i.e. IEEE-754 binary64 values.  A
finite binary64 value is an exact rational, so we model float values as
rationals and each float operation as the IEEE-754 prescription: compute
the exact rational result, then round to the nearest representable value
(53-bit significand, quantum floored at `2 ^ (-1074)` for subnormals),
with ties going to the even significand.  Comparison of finite floats
coincides with rational comparison.  Overflow to infinity (magnitudes
beyond `2 ^ 1024`) and NaN payloads are not modelled; no value in this
development approaches them. -/

/-- Floor of the base-2 logarithm of a positive natural, fuel-based (the
first argument is fuel; `natLog2` supplies `n` itself, which bounds the
recursion depth `⌊log2 n⌋`). -/
def natLog2F : Nat → Nat → Nat
  | 0, _ => 0
  | fuel + 1, n => if 2 ≤ n then natLog2F fuel (n / 2) + 1 else 0

/-- Floor of the base-2 logarithm of a positive natural. -/
def natLog2 (n : Nat) : Nat := natLog2F n n

/-- Floor of the base-2 logarithm of the positive rational `n / d`:
with `a = ⌊log2 n⌋` and `b = ⌊log2 d⌋` the answer is `a - b` when
`2 ^ (a - b) ≤ n / d` (checked cross-multiplied) and `a - b - 1` otherwise. -/
def floorLog2Pos (n d : Nat) : Int :=
  let a := natLog2 n
  let b := natLog2 d
  if d * 2 ^ a ≤ n * 2 ^ b then (a : Int) - (b : Int) else (a : Int) - (b : Int) - 1

/-- Exact rational addition, computed on numerators and denominators via
`mkRat` (the library `Rat.add` is marked irreducible, which blocks
evaluation inside `decide`); `qadd_eq_add` certifies it is rational
addition. -/
def qadd (x y : ℚ) : ℚ := mkRat (x.num * y.den + y.num * x.den) (x.den * y.den)

/-- Exact rational subtraction via `mkRat`; `qsub_eq_sub` certifies it. -/
def qsub (x y : ℚ) : ℚ := mkRat (x.num * y.den - y.num * x.den) (x.den * y.den)

theorem qadd_eq_add (x y : ℚ) : qadd x y = x + y := (Rat.add_def' x y).symm

theorem qsub_eq_sub (x y : ℚ) : qsub x y = x - y := (Rat.sub_def' x y).symm

/-- The rational `q * 2 ^ k` for an integer `k`, computed on the numerator
(for `k ≥ 0`) or the denominator (for `k < 0`). -/
def qscale (q : ℚ) (k : Int) : ℚ :=
  match k with
  | .ofNat n => mkRat (q.num * (2 ^ n : Nat)) q.den
  | .negSucc n => mkRat q.num (q.den * 2 ^ (n + 1))

/-- Round a rational to the nearest integer, ties to the even integer (the
IEEE-754 default rounding applied to a scaled significand; symmetric around
zero).  With `f = ⌊q⌋` (flooring division; `den` is positive), the
fractional part `q - f` is compared against `1 / 2` cross-multiplied:
`q - f < 1 / 2` iff `2 * (num - f * den) < den`. -/
def roundHalfEven (q : ℚ) : Int :=
  let f := Int.fdiv q.num q.den
  let twice : Int := 2 * (q.num - f * q.den)
  if twice < (q.den : Int) then f
  else if (q.den : Int) < twice then f + 1
  else if f % 2 = 0 then f else f + 1

/-- Rounding of an exact rational to the nearest IEEE-754 binary64 value
(ties to even): pick the ulp exponent `u` that places the significand
`|q| / 2 ^ u` in `[2 ^ 52, 2 ^ 53)` — floored at `-1074` for subnormals —
round that significand half-to-even, and rescale. -/
def roundF64 (q : ℚ) : ℚ :=
  if q.num = 0 then 0
  else
    let e := floorLog2Pos q.num.natAbs q.den
    let u := max (e - 52) (-1074)
    qscale (mkRat (roundHalfEven (qscale q (-u))) 1) u

/-- Python float addition: exact sum, then binary64 rounding. -/
def fadd (x y : ℚ) : ℚ := roundF64 (qadd x y)

/-- Python float subtraction: exact difference, then binary64 rounding. -/
def fsub (x y : ℚ) : ℚ := roundF64 (qsub x y)

/-! ### Banking database: `src/backend/db/service.py` -/

/-- One account record (`models.Account`, the fields `transfer_funds` reads).
The balance is a Python float: a binary64 value, held as its exact rational
value; arithmetic on it goes through `fadd` / `fsub`. -/
structure Account where
  balance : ℚ
deriving DecidableEq, Repr

/-- One payment record as written by `transfer_funds` (`amount` is the float
passed in, stored without arithmetic). -/
structure Payment where
  from_account : Str
  to_account : Str
  amount : ℚ
  date : Str
  status : Str
deriving DecidableEq, Repr

/-- The in-memory banking database (the parts `transfer_funds` touches). -/
structure Db where
  accounts : List (Str × Account)
  payments : List (Str × Payment)
deriving DecidableEq, Repr

/-- Embedding of `DatabaseService._generate_payment_id`: take the maximum numeric part of
the existing payment keys (running max starting at 0, skipping unparsable
keys) and format `f"PAY{max_num + 1:03d}"`. -/
def generatePaymentId (payments : List (Str × Payment)) : Str :=
  'P' :: 'A' :: 'Y' :: pad3 (natToDigits (payFold 0 (payments.map Prod.fst) + 1))

/-- Embedding of `DatabaseService.transfer_funds`.  Returns the payment id on success and
`none` on a missing account or insufficient funds; `today` stands for the
`datetime.now()` date string.  The two balance mutations go through `dmodify`
because Python mutates the account dicts through aliases, and perform the
float operations `-=` / `+=` as binary64 arithmetic (`fsub` / `fadd`); the
guard `from_acc.get("balance", 0) < amount` compares finite floats, which
agrees with exact rational comparison. -/
def transfer_funds (db : Db) (from_account to_account : Str) (amount : ℚ)
    (today : Str) : Option Str × Db :=
  match dlookup from_account db.accounts, dlookup to_account db.accounts with
  | none, _ => (none, db)
  | some _, none => (none, db)
  | some from_acc, some _ =>
    if from_acc.balance < amount then (none, db)
    else
      let accounts1 := dmodify from_account
        (fun a => { a with balance := fsub a.balance amount }) db.accounts
      let accounts2 := dmodify to_account
        (fun a => { a with balance := fadd a.balance amount }) accounts1
      let payment_id := generatePaymentId db.payments
      let payment_data : Payment :=
        { from_account := from_account, to_account := to_account,
          amount := amount, date := today, status := "Completed".data }
      (some payment_id, ⟨accounts2, dinsert payment_id payment_data db.payments⟩)

/-! ### Freshness of generated payment ids -/

theorem payFold_le_aux (l : List Str) (acc : Nat) : acc ≤ payFold acc l := by
  induction l generalizing acc with
  | nil => simp [payFold]
  | cons k rest ih =>
    rw [payFold]
    match h : parsePayNum k with
    | some n => exact le_trans (le_max_left acc n) (ih _)
    | none => exact ih _

theorem payFold_mem_le (l : List Str) (k : Str) (n : Nat)
    (hk : k ∈ l) (hp : parsePayNum k = some n) : ∀ acc, n ≤ payFold acc l := by
  induction l with
  | nil => simp at hk
  | cons k2 rest ih =>
    intro acc
    rw [payFold]
    rcases List.mem_cons.mp hk with h | h
    · subst h
      simp only [hp]
      exact le_trans (le_max_right acc n) (payFold_le_aux _ _)
    · exact ih h _

theorem parse_generatePaymentId (payments : List (Str × Payment)) :
    parsePayNum (generatePaymentId payments)
      = some (payFold 0 (payments.map Prod.fst) + 1) := by
  set m := payFold 0 (payments.map Prod.fst) + 1 with hm
  have hpadmem : ∀ c ∈ pad3 (natToDigits m), c ≠ 'P' := by
    intro c hc
    rcases pad3_mem _ _ hc with h | h
    · subst h; decide
    · obtain ⟨d, hd, rfl⟩ := natToDigitsAux_mem _ _ _ h
      exact digitChar_ne_P d hd
  have hpaddig : ∀ c ∈ pad3 (natToDigits m), c.isDigit = true := by
    intro c hc
    rcases pad3_mem _ _ hc with h | h
    · subst h; decide
    · obtain ⟨d, hd, rfl⟩ := natToDigitsAux_mem _ _ _ h
      exact digitChar_isDigit d hd
  have hstrip : stripPAY (generatePaymentId payments) = pad3 (natToDigits m) := by
    rw [generatePaymentId, ← hm]
    rw [show stripPAY ('P' :: 'A' :: 'Y' :: pad3 (natToDigits m))
        = stripPAY (pad3 (natToDigits m)) by rw [stripPAY]; simp]
    exact stripPAY_of_no_P _ hpadmem
  have hne : pad3 (natToDigits m) ≠ [] :=
    pad3_ne_nil _ (natToDigits_ne_nil m (by omega))
  rw [parsePayNum]
  simp only [hstrip]
  rw [if_pos ⟨hne, List.all_eq_true.mpr hpaddig⟩, pad3_val, natToDigits_val]

theorem generatePaymentId_fresh (payments : List (Str × Payment)) :
    dlookup (generatePaymentId payments) payments = none := by
  match h : dlookup (generatePaymentId payments) payments with
  | none => rfl
  | some v =>
    exfalso
    have hmem := dlookup_mem_keys _ _ _ h
    have hle := payFold_mem_le _ _ _ hmem (parse_generatePaymentId payments) 0
    omega

/-! ### Claims C9 and C10: the funds-transfer domain action -/

/-- C9.  The funds-transfer domain action returns the typed failure value
`none` (never an exception: the embedding is a total function) whenever the
source or destination account does not exist or the source balance is below
the requested amount, and in every such failure case the database — account
balances and the payments map — is returned unchanged. -/
theorem transfer_funds_failure_none (db : Db) (from_account to_account : Str)
    (amount : ℚ) (today : Str)
    (h : dlookup from_account db.accounts = none ∨
         dlookup to_account db.accounts = none ∨
         ∃ fa, dlookup from_account db.accounts = some fa ∧ fa.balance < amount) :
    transfer_funds db from_account to_account amount today = (none, db) := by
  rcases h with h1 | h1 | ⟨fa, hfa, hlt⟩
  · simp [transfer_funds, h1]
  · cases hf : dlookup from_account db.accounts with
    | none => simp [transfer_funds, hf]
    | some fa => simp [transfer_funds, hf, h1]
  · cases ht : dlookup to_account db.accounts with
    | none => simp [transfer_funds, hfa, ht]
    | some ta => simp [transfer_funds, hfa, ht, hlt]

/-- Concrete banking database used to witness the transfer theorems. -/
def dbW : Db :=
  ⟨[("ACC1".data, ⟨100⟩), ("ACC2".data, ⟨50⟩)],
   [("PAY001".data, ⟨"ACC2".data, "ACC1".data, 10, "2026-01-01".data, "Completed".data⟩)]⟩

/-- Concrete banking database whose source balance `1e16` sits where the
binary64 ulp is 2, exhibiting float rounding in `transfer_funds`. -/
def dbF : Db :=
  ⟨[("ACC1".data, ⟨10000000000000000⟩), ("ACC2".data, ⟨50⟩)],
   [("PAY001".data, ⟨"ACC2".data, "ACC1".data, 10, "2026-01-01".data, "Completed".data⟩)]⟩

theorem transfer_funds_failure_none_witness :
    (dlookup "ACC1".data dbW.accounts = none ∨
     dlookup "ACC2".data dbW.accounts = none ∨
     ∃ fa, dlookup "ACC1".data dbW.accounts = some fa ∧ fa.balance < 500) ∧
    transfer_funds dbW "ACC1".data "ACC2".data 500 "2026-02-03".data = (none, dbW) :=
  ⟨Or.inr (Or.inr ⟨⟨100⟩, by decide, by decide⟩),
   transfer_funds_failure_none dbW "ACC1".data "ACC2".data 500 "2026-02-03".data
     (Or.inr (Or.inr ⟨⟨100⟩, by decide, by decide⟩))⟩

/-- C10 counterexample.  The source balances are Python floats, so the
debit is binary64 arithmetic, not exact: with a source balance of `1e16`
and an amount of `1`, the transfer succeeds yet `1e16 - 1` rounds (tie to
even significand) back to `1e16` — the source balance is UNCHANGED, the
debit is not "exactly the amount", and the sum of the two balances grows
by 1 instead of being preserved. -/
theorem transfer_funds_inexact_cex :
    (transfer_funds dbF "ACC1".data "ACC2".data 1 "2026-02-03".data).1
        = some "PAY002".data ∧
    dlookup "ACC1".data
        (transfer_funds dbF "ACC1".data "ACC2".data 1 "2026-02-03".data).2.accounts
      = some ⟨(10000000000000000 : ℚ)⟩ ∧
    dlookup "ACC2".data
        (transfer_funds dbF "ACC1".data "ACC2".data 1 "2026-02-03".data).2.accounts
      = some ⟨(51 : ℚ)⟩ ∧
    (10000000000000000 : ℚ) - 1 ≠ (10000000000000000 : ℚ) ∧
    (10000000000000000 : ℚ) + 51 ≠ (10000000000000000 : ℚ) + 50 := by
  refine ⟨by decide, by decide, by decide, by norm_num, by norm_num⟩

/-- C10 as amended.  A successful transfer between two distinct existing
accounts sets the source balance to the binary64 result of subtracting the
amount and the destination balance to the binary64 result of adding it
(equal to the exact debit/credit only when those are representable), and
records a payment with the requested amount and status "Completed" under a
fresh payment id — one that was not previously a key of the payments map —
so no existing payment record is overwritten. -/
theorem transfer_funds_success_effects (db : Db) (from_account to_account : Str)
    (amount : ℚ) (today : Str) (fa ta : Account) (pid : Str)
    (hf : dlookup from_account db.accounts = some fa)
    (ht : dlookup to_account db.accounts = some ta)
    (hne : from_account ≠ to_account)
    (hs : (transfer_funds db from_account to_account amount today).1 = some pid) :
    dlookup from_account
        (transfer_funds db from_account to_account amount today).2.accounts
      = some ⟨fsub fa.balance amount⟩ ∧
    dlookup to_account
        (transfer_funds db from_account to_account amount today).2.accounts
      = some ⟨fadd ta.balance amount⟩ ∧
    dlookup pid db.payments = none ∧
    dlookup pid (transfer_funds db from_account to_account amount today).2.payments
      = some ⟨from_account, to_account, amount, today, "Completed".data⟩ ∧
    (∀ k v, dlookup k db.payments = some v →
      dlookup k (transfer_funds db from_account to_account amount today).2.payments
        = some v) := by
  have hnlt : ¬ fa.balance < amount := by
    intro hlt
    simp [transfer_funds, hf, ht, hlt] at hs
  have hres : transfer_funds db from_account to_account amount today
      = (some (generatePaymentId db.payments),
         ⟨dmodify to_account (fun a => { a with balance := fadd a.balance amount })
            (dmodify from_account (fun a => { a with balance := fsub a.balance amount })
              db.accounts),
          dinsert (generatePaymentId db.payments)
            { from_account := from_account, to_account := to_account,
              amount := amount, date := today, status := "Completed".data }
            db.payments⟩) := by
    simp [transfer_funds, hf, ht, hnlt]
  have hpid : pid = generatePaymentId db.payments := by
    rw [hres] at hs
    exact (Option.some.inj hs).symm
  subst hpid
  refine ⟨?_, ?_, generatePaymentId_fresh _, ?_, ?_⟩
  · rw [hres]
    dsimp only
    rw [dlookup_dmodify_ne _ _ _ _ hne, dlookup_dmodify_self, hf]
    rfl
  · rw [hres]
    dsimp only
    rw [dlookup_dmodify_self, dlookup_dmodify_ne _ _ _ _ (Ne.symm hne), ht]
    rfl
  · rw [hres]
    dsimp only
    exact dlookup_dinsert_self _ _ _
  · intro k v hk
    rw [hres]
    dsimp only
    have hkne : k ≠ generatePaymentId db.payments := by
      intro he
      subst he
      rw [generatePaymentId_fresh] at hk
      exact Option.noConfusion hk
    rw [dlookup_dinsert_ne _ _ _ _ hkne]
    exact hk

theorem transfer_funds_success_effects_witness :
    (dlookup "ACC1".data dbW.accounts = some ⟨100⟩ ∧
     dlookup "ACC2".data dbW.accounts = some ⟨50⟩ ∧
     "ACC1".data ≠ "ACC2".data ∧
     (transfer_funds dbW "ACC1".data "ACC2".data 30 "2026-02-03".data).1
        = some "PAY002".data) ∧
    (dlookup "ACC1".data
        (transfer_funds dbW "ACC1".data "ACC2".data 30 "2026-02-03".data).2.accounts
      = some ⟨fsub (100 : ℚ) 30⟩ ∧
     dlookup "ACC2".data
        (transfer_funds dbW "ACC1".data "ACC2".data 30 "2026-02-03".data).2.accounts
      = some ⟨fadd (50 : ℚ) 30⟩ ∧
     dlookup "PAY002".data dbW.payments = none ∧
     dlookup "PAY002".data
        (transfer_funds dbW "ACC1".data "ACC2".data 30 "2026-02-03".data).2.payments
      = some ⟨"ACC1".data, "ACC2".data, 30, "2026-02-03".data, "Completed".data⟩ ∧
     (∀ k v, dlookup k dbW.payments = some v →
       dlookup k
          (transfer_funds dbW "ACC1".data "ACC2".data 30 "2026-02-03".data).2.payments
         = some v)) :=
  ⟨⟨by decide, by decide, by decide, by decide⟩,
   transfer_funds_success_effects dbW "ACC1".data "ACC2".data 30 "2026-02-03".data
     ⟨100⟩ ⟨50⟩ "PAY002".data (by decide) (by decide) (by decide) (by decide)⟩

/-! ### Conversation turns (`models.Utterance`) -/

/-- One transcript turn: `{role, content}`. -/
structure Utterance where
  role : Str
  content : Str
deriving DecidableEq, Repr

/-! ### Hand-off state machine: `src/backend/services/agents.py` -/

/-- The four conversation handlers wired up in `AgentService.__init__`. -/
inductive Handler
  | triage
  | accounts
  | payments
  | applications
deriving DecidableEq, Repr

/-- The four agent-transfer methods of `AgentService`. -/
inductive TransferAction
  | toAccounts
  | toPayments
  | toApplications
  | backToTriage
deriving DecidableEq, Repr

/-- The handler each transfer method assigns to `self.current_agent`. -/
def transferTarget : TransferAction → Handler
  | .toAccounts => .accounts
  | .toPayments => .payments
  | .toApplications => .applications
  | .backToTriage => .triage

/-- The transfer functions each agent is constructed with in
`AgentService.__init__`: the triage agent receives all three forward
transfers, the accounts agent receives `transfer_to_payments`, and the
payments and applications agents receive `transfer_back_to_triage`. -/
def exposedTransfers : Handler → List TransferAction
  | .triage => [.toAccounts, .toPayments, .toApplications]
  | .accounts => [.toPayments]
  | .payments => [.backToTriage]
  | .applications => [.backToTriage]

/-- The declared hand-off edges: targets of the exposed transfer functions. -/
def transitions (h : Handler) : List Handler :=
  (exposedTransfers h).map transferTarget

/-- Mutable `AgentService` state: the single `current_agent` reference (so
exactly one handler is active at any instant by construction) and the
`self.messages` history. -/
structure AgentState where
  currentAgent : Handler
  messages : List Utterance
deriving DecidableEq, Repr

/-- Initialization: `AgentService.__init__` ends with `self.current_agent = self.triage_agent`
and `self.messages = []`. -/
def AgentState.init : AgentState := ⟨.triage, []⟩

/-- Effect of invoking a transfer method on the service state. -/
def applyTransfer (s : AgentState) (a : TransferAction) : AgentState :=
  { s with currentAgent := transferTarget a }

/-- Embedding of `AgentService.run`: `self.messages.extend(messages)`. -/
def extendMessages (s : AgentState) (msgs : List Utterance) : AgentState :=
  { s with messages := s.messages ++ msgs }

/-! ### Claim C3: hand-off state machine -/

/-- C3.  The active handler is a single field of the service state (so exactly
one handler is active at any instant), the initial active handler is triage,
the declared transition sets are triage → {accounts, payments, applications},
accounts → {payments}, payments → {triage}, applications → {triage}, and any
hand-off invocable from the active handler moves the active handler to a
member of that handler's declared transition set — no other edge exists. -/
theorem handoff_state_machine :
    AgentState.init.currentAgent = Handler.triage ∧
    transitions .triage = [.accounts, .payments, .applications] ∧
    transitions .accounts = [.payments] ∧
    transitions .payments = [.triage] ∧
    transitions .applications = [.triage] ∧
    ∀ (s : AgentState) (a : TransferAction),
      a ∈ exposedTransfers s.currentAgent →
      (applyTransfer s a).currentAgent ∈ transitions s.currentAgent := by
  refine ⟨rfl, rfl, rfl, rfl, rfl, ?_⟩
  intro s a ha
  show transferTarget a ∈ transitions s.currentAgent
  rw [transitions]
  exact List.mem_map_of_mem transferTarget ha

theorem handoff_state_machine_witness :
    TransferAction.toAccounts ∈ exposedTransfers AgentState.init.currentAgent ∧
    (applyTransfer AgentState.init TransferAction.toAccounts).currentAgent
      ∈ transitions AgentState.init.currentAgent :=
  ⟨by decide,
   handoff_state_machine.2.2.2.2.2 AgentState.init TransferAction.toAccounts (by decide)⟩

/-! ### WebSocket session machine: `src/backend/ws/voice.py` -/

/-- Outbound messages of `websocket_handler` (`models.ConfigResponse`,
`PingPongResponse`, `LLMResponse`).  The optional `end_call` /
`transfer_number` fields of `LLMResponse` are omitted: the handler never
reads them and no claim mentions them. -/
inductive OutEvent
  | config
  | pingPong (timestamp : Int)
  | response (response_id : Nat) (content : Str) (content_complete : Bool)
deriving DecidableEq, Repr

/-- Decoded inbound Retell events.  `response_required` and
`reminder_required` share one dispatch branch, distinguished only by the
`isReminder` flag the handler never reads; a missing `response_id` decodes
as 0 (`request_json.get("response_id", 0)`). -/
inductive InEvent
  | callDetails (from_number : Str)
  | pingPong (timestamp : Int)
  | updateOnly (transcript : List Utterance)
  | responseRequired (isReminder : Bool) (response_id : Nat) (transcript : List Utterance)
deriving DecidableEq, Repr

/-- The user record fields `handle_message` reads from
`db_service.get_user(formatted_number)`. -/
structure UserRec where
  name : Str
deriving DecidableEq, Repr

/-- Modelled from the spec: `services/llm_service.py` (class `LlmService`) is
imported by `ws/voice.py` but absent from the sources.  Per the spec it holds
the caller identity set by `set_user_info` and a fresh `AgentService`
(hand-off state machine) whose initial active handler is triage. -/
structure LlmClient where
  userName : Str
  userNumber : Option Str
  agent : AgentState
deriving DecidableEq, Repr

/-- Modelled from the spec: the opening greeting text used by
`draft_begin_message`, built from the seeded name (personalized on profile
resolution, the anonymous "there" otherwise). -/
def greetingFor (name : Str) : Str := "Hello ".data ++ name

/-- Modelled from the spec: `draft_begin_message` produces exactly one
generated opening response, treated as sequence 0 and complete. -/
def draft_begin_message (c : LlmClient) : OutEvent :=
  .response 0 (greetingFor c.userName) true

/-- Embedding of `"+1-" + from_number[2:5] + "-" + from_number[5:8] + "-" + from_number[8:]`. -/
def formatNumber (fn : Str) : Str :=
  "+1-".data ++ (fn.drop 2).take 3 ++ "-".data ++ (fn.drop 5).take 3
    ++ "-".data ++ fn.drop 8

/-- External collaborators of the session loop: the profile lookup
(`db_service.get_user`) and — modelled from the spec, since
`llm_service.py` is absent — `draft_response`, the finite ordered fragment
stream generated for a sequence number and transcript. -/
structure Env where
  getUser : Str → Option UserRec
  gen : Nat → List Utterance → List OutEvent

/-- One in-flight `draft_response` consumer loop: the immutable
`request_obj.response_id` and the fragments not yet emitted. -/
structure GenTask where
  req_id : Nat
  pending : List OutEvent
deriving DecidableEq, Repr

/-- Per-connection state: the `nonlocal response_id` and `llm_client`
variables of `websocket_handler`, the in-flight generation tasks, and the
chronological list of messages sent on the connection. -/
structure Machine where
  resp_id : Nat
  client : Option LlmClient
  tasks : List GenTask
  sent : List OutEvent
deriving DecidableEq, Repr

/-- Connection state right after accept: `response_id = 0`,
`llm_client = None`, and the config message already sent. -/
def initMachine : Machine := ⟨0, none, [], [.config]⟩

/-- The synchronous prefix of `handle_message` for one decoded event
(everything before the fragment-streaming loop suspends):
* `call_details`: if `from_number` is falsy, nothing happens; otherwise the
  number is formatted, the user looked up, the client initialized
  (personalized on success, seeded with "there" on failure) and the one
  opening response sent;
* `ping_pong`: echo the timestamp;
* `update_only`: `pass`;
* `response_required` / `reminder_required`: `response_id` is overwritten
  with the event's sequence, then, only if the client is initialized, a
  generation task for that sequence is started. -/
def stepRecv (env : Env) (m : Machine) (e : InEvent) : Machine :=
  match e with
  | .callDetails fn =>
    if fn = [] then m
    else
      match env.getUser (formatNumber fn) with
      | some u =>
        let c : LlmClient := ⟨u.name, some (formatNumber fn), AgentState.init⟩
        { m with client := some c, sent := m.sent ++ [draft_begin_message c] }
      | none =>
        let c : LlmClient := ⟨"there".data, none, AgentState.init⟩
        { m with client := some c, sent := m.sent ++ [draft_begin_message c] }
  | .pingPong t => { m with sent := m.sent ++ [.pingPong t] }
  | .updateOnly _ => m
  | .responseRequired _ rid tr =>
    let m1 := { m with resp_id := rid }
    match m1.client with
    | none => m1
    | some _ => { m1 with tasks := m1.tasks ++ [⟨rid, env.gen rid tr⟩] }

/-- One iteration of the fragment-streaming loop of task `i` against the
shared `response_id`: the next fragment is sent FIRST, and only then is
`request_obj.response_id < response_id` checked — on preemption the loop
breaks; after the last fragment the loop ends.  Returns the updated task
list and the messages sent. -/
def emitTasks (resp_id : Nat) : Nat → List GenTask → List GenTask × List OutEvent
  | _, [] => ([], [])
  | 0, t :: rest =>
    match t.pending with
    | [] => (rest, [])
    | f :: p =>
      if t.req_id < resp_id then (rest, [f])
      else if p = [] then (rest, [f])
      else ({ t with pending := p } :: rest, [f])
  | i + 1, t :: rest =>
    let r := emitTasks resp_id i rest
    (t :: r.1, r.2)

/-- A scheduler action of the cooperative event loop: dispatch the next
inbound event, or resume in-flight generation task `i` for one fragment. -/
inductive SchedStep
  | recv (e : InEvent)
  | emit (i : Nat)

/-- One scheduler action applied to the connection state. -/
def step (env : Env) (m : Machine) (s : SchedStep) : Machine :=
  match s with
  | .recv e => stepRecv env m e
  | .emit i =>
    let r := emitTasks m.resp_id i m.tasks
    { m with tasks := r.1, sent := m.sent ++ r.2 }

/-- Run a sequence of scheduler actions. -/
def run (env : Env) (m : Machine) (l : List SchedStep) : Machine :=
  l.foldl (step env) m

/-! ### Concrete environment used by counterexamples and witnesses -/

/-- A two-fragment response stream: one partial fragment, then the final one. -/
def genTwo (rid : Nat) (_tr : List Utterance) : List OutEvent :=
  [.response rid "a".data false, .response rid "b".data true]

/-- Concrete environment: no caller profile resolves, and every sequence
generates the two-fragment stream `genTwo`. -/
def env0 : Env := ⟨fun _ => none, genTwo⟩

/-- A concrete caller number and transcript turn. -/
def fnW : Str := "+12025550123".data

def uttW : Utterance := ⟨"user".data, "hi".data⟩

/-! ### Claim C7: keep-alive echo -/

/-- C7.  A `ping_pong` event with timestamp `T` appends exactly one
`ping_pong` reply carrying the same `T` to the connection and changes
nothing else — `resp_id`, `client` and the in-flight tasks are untouched,
for every machine state, so the echo is independent of any in-flight
generation. -/
theorem keepalive_echo (env : Env) (m : Machine) (t : Int) :
    step env m (.recv (.pingPong t)) = { m with sent := m.sent ++ [OutEvent.pingPong t] } :=
  rfl

/-! ### Claim C8: transcript-update events -/

/-- C8 counterexample.  Processing an `update_only` event carrying a
non-empty transcript leaves the session state completely unchanged: the
carried turns are appended nowhere (the handler's branch is `pass` and the
session keeps no transcript), refuting the claim that they are appended to
the session's transcript. -/
theorem update_only_append_cex :
    run env0 initMachine [.recv (.callDetails fnW), .recv (.updateOnly [uttW])]
      = run env0 initMachine [.recv (.callDetails fnW)] ∧
    ([uttW] : List Utterance) ≠ [] := by
  constructor
  · rfl
  · decide

/-- C8 as amended.  An `update_only` event is ignored entirely: no outbound
message is emitted and no state is modified — the session stores no
transcript (each `response_required` event carries the full transcript
instead). -/
theorem update_only_noop (env : Env) (m : Machine) (tr : List Utterance) :
    step env m (.recv (.updateOnly tr)) = m :=
  rfl

/-! ### Claim C2: evolution of the recorded response_id -/

/-- C2 counterexample.  After requests with sequences 5 then 3, the recorded
`response_id` is 3: it rolled back from 5, and the non-monotonic request was
not dropped (a second generation task was scheduled), refuting the claimed
monotonicity validation. -/
theorem response_id_rollback_cex :
    (run env0 initMachine
        [.recv (.callDetails fnW), .recv (.responseRequired false 5 [])]).resp_id = 5 ∧
    (run env0 initMachine
        [.recv (.callDetails fnW), .recv (.responseRequired false 5 []),
         .recv (.responseRequired false 3 [])]).resp_id = 3 ∧
    (run env0 initMachine
        [.recv (.callDetails fnW), .recv (.responseRequired false 5 []),
         .recv (.responseRequired false 3 [])]).tasks.length = 2 ∧
    (3 : Nat) < 5 := by
  refine ⟨rfl, rfl, rfl, by decide⟩

/-- C2 as amended.  The recorded `response_id` is simply overwritten by each
`response_required` / `reminder_required` event with that event's sequence
number — no monotonicity validation exists, so it equals the last received
sequence (and can therefore decrease); no other scheduler action changes it. -/
theorem response_id_last_write (env : Env) (m : Machine) (s : SchedStep) :
    (step env m s).resp_id =
      match s with
      | .recv (.responseRequired _ rid _) => rid
      | _ => m.resp_id := by
  cases s with
  | recv e =>
    cases e with
    | callDetails fn =>
      show (stepRecv env m (.callDetails fn)).resp_id = m.resp_id
      rw [stepRecv]
      by_cases h : fn = []
      · rw [if_pos h]
      · rw [if_neg h]
        cases env.getUser (formatNumber fn) <;> rfl
    | pingPong t => rfl
    | updateOnly tr => rfl
    | responseRequired b rid tr =>
      show (stepRecv env m (.responseRequired b rid tr)).resp_id = rid
      rw [stepRecv]
      cases m.client <;> rfl
  | emit i => rfl

/-! ### Claim C6: response-request before session-init -/

/-- C6 counterexample.  A `response_required` on an uninitialized session is
dropped without emitting any fragment or task, but the session state is NOT
unchanged: the recorded `response_id` is overwritten (line 97 runs before the
`llm_client` check of line 103), so the resulting state differs from the
initial one. -/
theorem uninitialized_request_state_cex :
    (run env0 initMachine [.recv (.responseRequired false 5 [])]).sent
        = initMachine.sent ∧
    (run env0 initMachine [.recv (.responseRequired false 5 [])]).tasks = [] ∧
    (run env0 initMachine [.recv (.responseRequired false 5 [])]).resp_id = 5 ∧
    initMachine.resp_id = 0 ∧
    run env0 initMachine [.recv (.responseRequired false 5 [])] ≠ initMachine := by
  refine ⟨rfl, rfl, rfl, rfl, by decide⟩

/-- C6 as amended.  On a session with no initialized client, a
`response_required` event emits nothing and schedules nothing — but it does
update the recorded `response_id` to the event's sequence before the
initialization check; everything else is unchanged. -/
theorem uninitialized_request_drop (env : Env) (m : Machine) (b : Bool) (rid : Nat)
    (tr : List Utterance) (h : m.client = none) :
    step env m (.recv (.responseRequired b rid tr)) = { m with resp_id := rid } := by
  cases m with
  | mk r c ts st =>
    dsimp only at h
    subst h
    rfl

theorem uninitialized_request_drop_witness :
    initMachine.client = none ∧
    step env0 initMachine (.recv (.responseRequired false 5 []))
      = { initMachine with resp_id := 5 } :=
  ⟨rfl, uninitialized_request_drop env0 initMachine false 5 [] rfl⟩

/-! ### Claim C4: session-init and the opening response -/

/-- C4 counterexample.  A `call_details` event whose `from_number` is empty
(`call.get("from_number", "")` on a call without one) produces NO opening
response at all and leaves the client uninitialized — the whole branch is
guarded by `if from_number:` — refuting "exactly one generated opening
response for every session-init event". -/
theorem call_details_empty_number_cex :
    run env0 initMachine [.recv (.callDetails [])] = initMachine ∧
    initMachine.client = none ∧
    initMachine.sent = [OutEvent.config] := by
  refine ⟨rfl, rfl, rfl⟩

/-- C4 as amended.  For a `call_details` event with a NON-EMPTY
`from_number`, exactly one opening response is produced, treated as sequence
0 and complete: personalized with the resolved user's name when the lookup
succeeds, seeded with the anonymous "there" when it fails — and in both
cases the client is initialized with a fresh agent state whose active
handler is triage. -/
theorem call_details_opening_response (env : Env) (m : Machine) (fn : Str)
    (h : fn ≠ []) :
    step env m (.recv (.callDetails fn)) =
      match env.getUser (formatNumber fn) with
      | some u =>
        { m with client := some ⟨u.name, some (formatNumber fn), AgentState.init⟩,
                 sent := m.sent ++ [OutEvent.response 0 (greetingFor u.name) true] }
      | none =>
        { m with client := some ⟨"there".data, none, AgentState.init⟩,
                 sent := m.sent
                   ++ [OutEvent.response 0 (greetingFor "there".data) true] } := by
  cases hgu : env.getUser (formatNumber fn) with
  | none =>
    show stepRecv env m (.callDetails fn) = _
    rw [stepRecv, if_neg h, hgu]
    rfl
  | some u =>
    show stepRecv env m (.callDetails fn) = _
    rw [stepRecv, if_neg h, hgu]
    rfl

theorem call_details_opening_response_witness :
    fnW ≠ [] ∧
    step env0 initMachine (.recv (.callDetails fnW)) =
      { initMachine with
          client := some ⟨"there".data, none, AgentState.init⟩,
          sent := initMachine.sent
            ++ [OutEvent.response 0 (greetingFor "there".data) true] } :=
  ⟨by decide, call_details_opening_response env0 initMachine fnW (by decide)⟩

/-! ### Fragment accounting for the preemption and idempotence claims -/

/-- The sequence number a response fragment is tagged with. -/
def fragSeq : OutEvent → Option Nat
  | .response rid _ _ => some rid
  | _ => none

/-- Is this outbound message a response fragment of sequence `s`? -/
def isFragOf (s : Nat) (f : OutEvent) : Bool :=
  match f with
  | .response rid _ _ => rid == s
  | _ => false

/-- Is this outbound message a FINAL response fragment of sequence `s`? -/
def isFinalOf (s : Nat) (f : OutEvent) : Bool :=
  match f with
  | .response rid _ cc => rid == s && cc
  | _ => false

/-- Number of fragments of sequence `s` in an outbound message list. -/
def fragCount (s : Nat) (l : List OutEvent) : Nat := l.countP (isFragOf s)

/-- Number of final fragments of sequence `s` in an outbound message list. -/
def finalCount (s : Nat) (l : List OutEvent) : Nat := l.countP (isFinalOf s)

/-- Number of in-flight generation tasks for sequence `s`. -/
def taskCount (s : Nat) (ts : List GenTask) : Nat := ts.countP (fun t => t.req_id == s)

/-- Number of still-pending final fragments of sequence `s` across all tasks. -/
def tasksFinals (s : Nat) (ts : List GenTask) : Nat :=
  (ts.map (fun t => finalCount s t.pending)).sum

/-- Modelled from the spec: `draft_response` ties each produced fragment to
the request's sequence number ("`sequence` ties the fragment to the request
that produced it"). -/
def TaggedGen (env : Env) : Prop :=
  ∀ rid tr f, f ∈ env.gen rid tr → fragSeq f = some rid

/-- Modelled from the spec: a generation stream contains at most one final
fragment ("a response is complete when a fragment with `isFinal = true` is
emitted"; after it the generator retires). -/
def OneFinalGen (env : Env) : Prop :=
  ∀ rid tr, finalCount rid (env.gen rid tr) ≤ 1

/-- Every pending fragment of every in-flight task is tagged with that
task's sequence number. -/
def TaggedTasks (ts : List GenTask) : Prop :=
  ∀ t ∈ ts, ∀ f ∈ t.pending, fragSeq f = some t.req_id

/-- No session-init event occurs among the scheduler actions (the protocol
delivers `call_details` once, at session start). -/
def NoCallDetails (steps : List SchedStep) : Prop :=
  ∀ fn, SchedStep.recv (.callDetails fn) ∉ steps

/-- Every response-request among the scheduler actions carries a sequence
strictly above `s1` (the client keeps requesting newer sequences). -/
def ReqsAbove (s1 : Nat) (steps : List SchedStep) : Prop :=
  ∀ b rid tr, SchedStep.recv (.responseRequired b rid tr) ∈ steps → s1 < rid

theorem isFragOf_eq_false_of_tag (s rid : Nat) (f : OutEvent)
    (h : fragSeq f = some rid) (hne : rid ≠ s) : isFragOf s f = false := by
  cases f with
  | config => rfl
  | pingPong t => rfl
  | response r c cc =>
    rw [fragSeq] at h
    have : r = rid := Option.some.inj h
    subst this
    simpa [isFragOf] using hne

theorem isFragOf_eq_true_of_tag (s : Nat) (f : OutEvent)
    (h : fragSeq f = some s) : isFragOf s f = true := by
  cases f with
  | config => exact Option.noConfusion h
  | pingPong t => exact Option.noConfusion h
  | response r c cc =>
    rw [fragSeq] at h
    have : r = s := Option.some.inj h
    subst this
    simp [isFragOf]

theorem isFinalOf_eq_false_of_tag (s rid : Nat) (f : OutEvent)
    (h : fragSeq f = some rid) (hne : rid ≠ s) : isFinalOf s f = false := by
  cases f with
  | config => rfl
  | pingPong t => rfl
  | response r c cc =>
    rw [fragSeq] at h
    have : r = rid := Option.some.inj h
    subst this
    simp [isFinalOf, hne]

theorem finalCount_eq_zero_of_tag (s rid : Nat) (l : List OutEvent)
    (h : ∀ f ∈ l, fragSeq f = some rid) (hne : rid ≠ s) : finalCount s l = 0 := by
  rw [finalCount, List.countP_eq_zero]
  intro f hf
  simp [isFinalOf_eq_false_of_tag s rid f (h f hf) hne]

/-! ### Behaviour of one emit step -/

theorem emitTasks_tagged (rid : Nat) :
    ∀ (i : Nat) (ts : List GenTask), TaggedTasks ts →
      TaggedTasks (emitTasks rid i ts).1 := by
  intro i ts
  induction ts generalizing i with
  | nil =>
    intro _ t ht
    simp [emitTasks] at ht
  | cons t rest ih =>
    intro h
    have hrest : TaggedTasks rest := fun t' ht' => h t' (List.mem_cons_of_mem _ ht')
    cases i with
    | zero =>
      rw [emitTasks]
      cases hp : t.pending with
      | nil => exact hrest
      | cons f p =>
        dsimp only
        by_cases hlt : t.req_id < rid
        · rw [if_pos hlt]
          exact hrest
        · rw [if_neg hlt]
          by_cases hnil : p = []
          · rw [if_pos hnil]
            exact hrest
          · rw [if_neg hnil]
            dsimp only
            intro t' ht'
            rcases List.mem_cons.mp ht' with he | he
            · rw [he]
              intro f' hf'
              exact h t (List.mem_cons_self _ _) f'
                (by rw [hp]; exact List.mem_cons_of_mem _ hf')
            · exact hrest t' he
    | succ i =>
      rw [emitTasks]
      dsimp only
      intro t' ht'
      rcases List.mem_cons.mp ht' with he | he
      · rw [he]
        exact h t (List.mem_cons_self _ _)
      · exact ih i hrest t' he

theorem emitTasks_frag_bound (s1 rid : Nat) (h1 : s1 < rid) :
    ∀ (i : Nat) (ts : List GenTask), TaggedTasks ts →
      fragCount s1 (emitTasks rid i ts).2 + taskCount s1 (emitTasks rid i ts).1
        ≤ taskCount s1 ts := by
  intro i ts
  induction ts generalizing i with
  | nil =>
    intro _
    simp [emitTasks, fragCount, taskCount]
  | cons t rest ih =>
    intro h
    have hrest : TaggedTasks rest := fun t' ht' => h t' (List.mem_cons_of_mem _ ht')
    cases i with
    | zero =>
      rw [emitTasks]
      cases hp : t.pending with
      | nil =>
        dsimp only
        have hc : taskCount s1 rest ≤ taskCount s1 (t :: rest) := by
          rw [taskCount, taskCount, List.countP_cons]
          omega
        simpa [fragCount] using hc
      | cons f p =>
        dsimp only
        have htag : fragSeq f = some t.req_id :=
          h t (List.mem_cons_self _ _) f (by rw [hp]; exact List.mem_cons_self _ _)
        by_cases hs : t.req_id = s1
        · have hfrag : fragCount s1 [f] = 1 := by
            rw [fragCount, List.countP_cons, List.countP_nil,
              isFragOf_eq_true_of_tag s1 f (by rw [htag, hs])]
            rfl
          have hcnt1 : taskCount s1 (t :: rest) = taskCount s1 rest + 1 := by
            rw [taskCount, taskCount, List.countP_cons]
            simp [hs]
          have hlt : t.req_id < rid := by omega
          rw [if_pos hlt]
          dsimp only
          rw [hfrag, hcnt1]
          omega
        · have hfrag : fragCount s1 [f] = 0 := by
            rw [fragCount, List.countP_cons, List.countP_nil,
              isFragOf_eq_false_of_tag s1 t.req_id f htag hs]
            rfl
          have hcnt0 : taskCount s1 (t :: rest) = taskCount s1 rest := by
            rw [taskCount, taskCount, List.countP_cons]
            simp [hs]
          by_cases hlt : t.req_id < rid
          · rw [if_pos hlt]
            dsimp only
            rw [hfrag, hcnt0]
            omega
          · rw [if_neg hlt]
            by_cases hnil : p = []
            · rw [if_pos hnil]
              dsimp only
              rw [hfrag, hcnt0]
              omega
            · rw [if_neg hnil]
              dsimp only
              have hcnt2 : taskCount s1 ({ t with pending := p } :: rest)
                  = taskCount s1 rest := by
                rw [taskCount, taskCount, List.countP_cons]
                simp [hs]
              rw [hfrag, hcnt0, hcnt2]
              omega
    | succ i =>
      rw [emitTasks]
      dsimp only
      have hrec := ih i hrest
      have hcnt : taskCount s1 (t :: rest)
          = taskCount s1 rest + (if t.req_id == s1 then 1 else 0) := by
        rw [taskCount, taskCount, List.countP_cons]
      have hcnt2 : taskCount s1 (t :: (emitTasks rid i rest).1)
          = taskCount s1 (emitTasks rid i rest).1
            + (if t.req_id == s1 then 1 else 0) := by
        rw [taskCount, taskCount, List.countP_cons]
      rw [hcnt, hcnt2]
      omega

theorem emitTasks_final_bound (s rid : Nat) :
    ∀ (i : Nat) (ts : List GenTask),
      finalCount s (emitTasks rid i ts).2 + tasksFinals s (emitTasks rid i ts).1
        ≤ tasksFinals s ts := by
  intro i ts
  induction ts generalizing i with
  | nil =>
    simp [emitTasks, finalCount, tasksFinals]
  | cons t rest ih =>
    have hsum : ∀ (l : List GenTask) (x : GenTask), tasksFinals s (x :: l)
        = finalCount s x.pending + tasksFinals s l := by
      intro l x
      rw [tasksFinals, tasksFinals, List.map_cons, List.sum_cons]
    cases i with
    | zero =>
      rw [emitTasks]
      cases hp : t.pending with
      | nil =>
        dsimp only
        rw [hsum, hp]
      | cons f p =>
        dsimp only
        have hfp : finalCount s (f :: p)
            = finalCount s p + (if isFinalOf s f then 1 else 0) := by
          rw [finalCount, finalCount, List.countP_cons]
        have hf1 : finalCount s [f] = (if isFinalOf s f then 1 else 0) := by
          rw [finalCount, List.countP_cons, List.countP_nil, Nat.zero_add]
        by_cases hlt : t.req_id < rid
        · rw [if_pos hlt]
          dsimp only
          rw [hsum, hp, hfp, hf1]
          omega
        · rw [if_neg hlt]
          by_cases hnil : p = []
          · rw [if_pos hnil]
            dsimp only
            rw [hsum, hp, hfp, hf1]
            omega
          · rw [if_neg hnil]
            dsimp only
            rw [hsum, hsum, hp, hfp, hf1]
            dsimp only
            omega
    | succ i =>
      rw [emitTasks]
      dsimp only
      rw [hsum, hsum]
      have := ih i
      omega

/-! ### Step-level invariants -/

theorem fragCount_append (s : Nat) (l1 l2 : List OutEvent) :
    fragCount s (l1 ++ l2) = fragCount s l1 + fragCount s l2 := by
  rw [fragCount, fragCount, fragCount, List.countP_append]

theorem finalCount_append (s : Nat) (l1 l2 : List OutEvent) :
    finalCount s (l1 ++ l2) = finalCount s l1 + finalCount s l2 := by
  rw [finalCount, finalCount, finalCount, List.countP_append]

theorem tasksFinals_append (s : Nat) (l1 l2 : List GenTask) :
    tasksFinals s (l1 ++ l2) = tasksFinals s l1 + tasksFinals s l2 := by
  rw [tasksFinals, tasksFinals, tasksFinals, List.map_append, List.sum_append]

theorem step_tagged (env : Env) (hg : TaggedGen env) (m : Machine) (st : SchedStep)
    (h : TaggedTasks m.tasks) : TaggedTasks (step env m st).tasks := by
  cases st with
  | recv e =>
    cases e with
    | callDetails fn =>
      show TaggedTasks (stepRecv env m (.callDetails fn)).tasks
      rw [stepRecv]
      by_cases hfn : fn = []
      · rw [if_pos hfn]
        exact h
      · rw [if_neg hfn]
        cases env.getUser (formatNumber fn) with
        | none => exact h
        | some u => exact h
    | pingPong t => exact h
    | updateOnly tr => exact h
    | responseRequired b rid tr =>
      show TaggedTasks (stepRecv env m (.responseRequired b rid tr)).tasks
      rw [stepRecv]
      dsimp only
      cases m.client with
      | none => exact h
      | some c =>
        dsimp only
        intro t ht
        rcases List.mem_append.mp ht with hmem | hmem
        · exact h t hmem
        · have he : t = ⟨rid, env.gen rid tr⟩ := by simpa using hmem
          rw [he]
          intro f hf
          exact hg rid tr f hf
  | emit i => exact emitTasks_tagged m.resp_id i m.tasks h

theorem step_frag_invariant (env : Env) (s1 : Nat) (m : Machine)
    (st : SchedStep) (hw : TaggedTasks m.tasks) (hlt : s1 < m.resp_id)
    (hreq : ∀ b rid tr, st = SchedStep.recv (.responseRequired b rid tr) → s1 < rid)
    (hncd : ∀ fn, st ≠ SchedStep.recv (.callDetails fn)) :
    fragCount s1 (step env m st).sent + taskCount s1 (step env m st).tasks
      ≤ fragCount s1 m.sent + taskCount s1 m.tasks
    ∧ s1 < (step env m st).resp_id := by
  cases st with
  | recv e =>
    cases e with
    | callDetails fn => exact absurd rfl (hncd fn)
    | pingPong t =>
      refine ⟨?_, hlt⟩
      show fragCount s1 (m.sent ++ [OutEvent.pingPong t]) + taskCount s1 m.tasks ≤ _
      rw [fragCount_append]
      have h0 : fragCount s1 [OutEvent.pingPong t] = 0 := by
        rw [fragCount, List.countP_cons, List.countP_nil]
        rfl
      omega
    | updateOnly tr => exact ⟨le_rfl, hlt⟩
    | responseRequired b rid tr =>
      have hrid : s1 < rid := hreq b rid tr rfl
      cases hc : m.client with
      | none =>
        have hstep : step env m (.recv (.responseRequired b rid tr))
            = { m with resp_id := rid } := by
          show stepRecv env m (.responseRequired b rid tr) = _
          rw [stepRecv]
          dsimp only
          rw [hc]
        rw [hstep]
        exact ⟨le_rfl, hrid⟩
      | some c =>
        have hstep : step env m (.recv (.responseRequired b rid tr))
            = { m with resp_id := rid,
                       tasks := m.tasks ++ [⟨rid, env.gen rid tr⟩] } := by
          show stepRecv env m (.responseRequired b rid tr) = _
          rw [stepRecv]
          dsimp only
          rw [hc]
        rw [hstep]
        refine ⟨?_, hrid⟩
        have hbeq : (rid == s1) = false := by
          have : rid ≠ s1 := by omega
          simpa using this
        have htc : taskCount s1 (m.tasks ++ [⟨rid, env.gen rid tr⟩])
            = taskCount s1 m.tasks := by
          rw [taskCount, List.countP_append, taskCount, List.countP_cons,
            List.countP_nil]
          dsimp only
          rw [hbeq]
          rfl
        show fragCount s1 m.sent + taskCount s1 (m.tasks ++ [⟨rid, env.gen rid tr⟩])
          ≤ fragCount s1 m.sent + taskCount s1 m.tasks
        rw [htc]
  | emit i =>
    refine ⟨?_, hlt⟩
    show fragCount s1 (m.sent ++ (emitTasks m.resp_id i m.tasks).2)
        + taskCount s1 (emitTasks m.resp_id i m.tasks).1 ≤ _
    rw [fragCount_append]
    have := emitTasks_frag_bound s1 m.resp_id hlt i m.tasks hw
    omega

theorem preempt_run_bound (env : Env) (hg : TaggedGen env) (s1 : Nat) :
    ∀ (steps : List SchedStep) (m : Machine),
      TaggedTasks m.tasks → s1 < m.resp_id →
      ReqsAbove s1 steps → NoCallDetails steps →
      fragCount s1 (run env m steps).sent + taskCount s1 (run env m steps).tasks
        ≤ fragCount s1 m.sent + taskCount s1 m.tasks := by
  intro steps
  induction steps with
  | nil =>
    intro m _ _ _ _
    exact le_rfl
  | cons st rest ih =>
    intro m hw hlt hrr hcd
    have hrun : run env m (st :: rest) = run env (step env m st) rest := rfl
    rw [hrun]
    have hstep := step_frag_invariant env s1 m st hw hlt
      (fun b rid tr he => hrr b rid tr (he ▸ List.mem_cons_self _ _))
      (fun fn he => hcd fn (he ▸ List.mem_cons_self _ _))
    have hw' : TaggedTasks (step env m st).tasks := step_tagged env hg m st hw
    have hrr' : ReqsAbove s1 rest :=
      fun b rid tr hmem => hrr b rid tr (List.mem_cons_of_mem _ hmem)
    have hcd' : NoCallDetails rest :=
      fun fn hmem => hcd fn (List.mem_cons_of_mem _ hmem)
    exact le_trans (ih (step env m st) hw' hstep.2 hrr' hcd') hstep.1

/-- Is this scheduler action the dispatch of a response-request for
sequence `s`? -/
def isRecvReqFor (s : Nat) : SchedStep → Bool
  | .recv (.responseRequired _ rid _) => rid == s
  | _ => false

theorem step_final_invariant (env : Env) (hg : TaggedGen env) (ho : OneFinalGen env)
    (s : Nat) (m : Machine) (st : SchedStep)
    (hncd : ∀ fn, st ≠ SchedStep.recv (.callDetails fn)) :
    finalCount s (step env m st).sent + tasksFinals s (step env m st).tasks
      ≤ finalCount s m.sent + tasksFinals s m.tasks
        + (if isRecvReqFor s st then 1 else 0) := by
  cases st with
  | recv e =>
    cases e with
    | callDetails fn => exact absurd rfl (hncd fn)
    | pingPong t =>
      show finalCount s (m.sent ++ [OutEvent.pingPong t]) + tasksFinals s m.tasks ≤ _
      rw [finalCount_append]
      have h0 : finalCount s [OutEvent.pingPong t] = 0 := by
        rw [finalCount, List.countP_cons, List.countP_nil]
        rfl
      omega
    | updateOnly tr =>
      show finalCount s m.sent + tasksFinals s m.tasks ≤ _
      omega
    | responseRequired b rid tr =>
      cases hc : m.client with
      | none =>
        have hstep : step env m (.recv (.responseRequired b rid tr))
            = { m with resp_id := rid } := by
          show stepRecv env m (.responseRequired b rid tr) = _
          rw [stepRecv]
          dsimp only
          rw [hc]
        rw [hstep]
        show finalCount s m.sent + tasksFinals s m.tasks ≤ _
        omega
      | some c =>
        have hstep : step env m (.recv (.responseRequired b rid tr))
            = { m with resp_id := rid,
                       tasks := m.tasks ++ [⟨rid, env.gen rid tr⟩] } := by
          show stepRecv env m (.responseRequired b rid tr) = _
          rw [stepRecv]
          dsimp only
          rw [hc]
        rw [hstep]
        show finalCount s m.sent + tasksFinals s (m.tasks ++ [⟨rid, env.gen rid tr⟩])
          ≤ finalCount s m.sent + tasksFinals s m.tasks
            + (if isRecvReqFor s (SchedStep.recv (.responseRequired b rid tr))
                then 1 else 0)
        rw [tasksFinals_append]
        have hsingle : tasksFinals s [(⟨rid, env.gen rid tr⟩ : GenTask)]
            = finalCount s (env.gen rid tr) := by
          rw [tasksFinals, List.map_cons, List.map_nil, List.sum_cons, List.sum_nil]
          dsimp only
          omega
        rw [hsingle]
        dsimp only [isRecvReqFor]
        by_cases hb : (rid == s) = true
        · rw [if_pos hb]
          have hr : rid = s := by simpa using hb
          have hone := ho rid tr
          rw [hr] at hone ⊢
          omega
        · rw [if_neg hb]
          have hr : rid ≠ s := by simpa using hb
          have hz := finalCount_eq_zero_of_tag s rid (env.gen rid tr)
            (fun f hf => hg rid tr f hf) hr
          omega
  | emit i =>
    show finalCount s (m.sent ++ (emitTasks m.resp_id i m.tasks).2)
        + tasksFinals s (emitTasks m.resp_id i m.tasks).1 ≤ _
    rw [finalCount_append]
    have := emitTasks_final_bound s m.resp_id i m.tasks
    have hif : (if isRecvReqFor s (SchedStep.emit i) then 1 else 0) = 0 := rfl
    omega

theorem finals_run_bound (env : Env) (hg : TaggedGen env) (ho : OneFinalGen env)
    (s : Nat) :
    ∀ (steps : List SchedStep) (m : Machine), NoCallDetails steps →
      finalCount s (run env m steps).sent + tasksFinals s (run env m steps).tasks
        ≤ finalCount s m.sent + tasksFinals s m.tasks
          + steps.countP (isRecvReqFor s) := by
  intro steps
  induction steps with
  | nil =>
    intro m _
    show finalCount s m.sent + tasksFinals s m.tasks ≤ _
    rw [List.countP_nil]
    omega
  | cons st rest ih =>
    intro m hcd
    have hrun : run env m (st :: rest) = run env (step env m st) rest := rfl
    rw [hrun]
    have hstep := step_final_invariant env hg ho s m st
      (fun fn he => hcd fn (he ▸ List.mem_cons_self _ _))
    have hcd' : NoCallDetails rest :=
      fun fn hmem => hcd fn (List.mem_cons_of_mem _ hmem)
    have hrec := ih (step env m st) hcd'
    have hcp : (st :: rest).countP (isRecvReqFor s)
        = rest.countP (isRecvReqFor s) + (if isRecvReqFor s st then 1 else 0) :=
      List.countP_cons _ _ _
    rw [hcp]
    omega

/-! ### Claim C1: preemption of superseded sequences -/

/-- C1 counterexample.  After sequence 1 starts streaming (one fragment sent)
and sequence 2 is accepted, the NEXT fragment of sequence 1 — its final
fragment — is still delivered to the connection, because the loop sends each
fragment BEFORE consulting `request_obj.response_id < response_id`: lines
117–120 of `ws/voice.py` are send-then-check, not check-then-send. -/
theorem preemption_final_leak_cex :
    (run env0 initMachine
        [.recv (.callDetails fnW), .recv (.responseRequired false 1 []),
         .emit 0, .recv (.responseRequired false 2 [])]).resp_id = 2 ∧
    OutEvent.response 1 "b".data true ∉
      (run env0 initMachine
        [.recv (.callDetails fnW), .recv (.responseRequired false 1 []),
         .emit 0, .recv (.responseRequired false 2 [])]).sent ∧
    OutEvent.response 1 "b".data true ∈
      (run env0 initMachine
        [.recv (.callDetails fnW), .recv (.responseRequired false 1 []),
         .emit 0, .recv (.responseRequired false 2 []), .emit 0]).sent := by
  refine ⟨rfl, by decide, by decide⟩

/-- C1 as amended.  Once a newer sequence is the recorded one
(`s1 < response_id`), and provided all later accepted requests carry
sequences above `s1` and no further session-init occurs, the total number of
`s1` fragments ever delivered exceeds those already sent by at most one per
in-flight generation task: the suppression check runs after each emission, so
each stale task may leak exactly its next fragment (possibly the final one)
before it is abandoned — and no more. -/
theorem preemption_after_accept (env : Env) (hg : TaggedGen env) (s1 : Nat)
    (steps : List SchedStep) (m : Machine) (hw : TaggedTasks m.tasks)
    (hlt : s1 < m.resp_id) (hrr : ReqsAbove s1 steps) (hcd : NoCallDetails steps) :
    fragCount s1 (run env m steps).sent
      ≤ fragCount s1 m.sent + taskCount s1 m.tasks :=
  le_trans (Nat.le_add_right _ _)
    (preempt_run_bound env hg s1 steps m hw hlt hrr hcd)

theorem env0_tagged : TaggedGen env0 := by
  intro rid tr f hf
  have h2 : f = OutEvent.response rid "a".data false
      ∨ f = OutEvent.response rid "b".data true := by
    simpa [env0, genTwo] using hf
  rcases h2 with h | h <;> rw [h] <;> rfl

/-- A machine with sequence 2 accepted and one stale task for sequence 1
still holding its final fragment. -/
def mW : Machine :=
  ⟨2, some ⟨"there".data, none, AgentState.init⟩,
   [⟨1, [.response 1 "b".data true]⟩], []⟩

theorem preemption_after_accept_witness :
    TaggedGen env0 ∧ TaggedTasks mW.tasks ∧ 1 < mW.resp_id ∧
    ReqsAbove 1 [SchedStep.emit 0] ∧ NoCallDetails [SchedStep.emit 0] ∧
    fragCount 1 (run env0 mW [SchedStep.emit 0]).sent
      ≤ fragCount 1 mW.sent + taskCount 1 mW.tasks := by
  have hra : ReqsAbove 1 [SchedStep.emit 0] := by
    intro b rid tr h
    simp at h
  have hnc : NoCallDetails [SchedStep.emit 0] := by
    intro fn h
    simp at h
  have hwt : TaggedTasks mW.tasks := by
    intro t ht f hf
    have ht' : t = ⟨1, [OutEvent.response 1 "b".data true]⟩ := by
      simpa [mW] using ht
    subst ht'
    have hf' : f = OutEvent.response 1 "b".data true := by
      simpa using hf
    rw [hf']
    rfl
  exact ⟨env0_tagged, hwt, by decide, hra, hnc,
    preemption_after_accept env0 env0_tagged 1 [SchedStep.emit 0] mW
      hwt (by decide) hra hnc⟩

/-! ### Claim C5: duplicated response-requests -/

/-- C5 counterexample.  Replaying the SAME sequence number 1 twice schedules
two independent generation runs; the suppression check is the strict
`request_obj.response_id < response_id`, so neither run suppresses the other
and TWO final fragments for sequence 1 are delivered — refuting "at most one
final fragment per sequence value". -/
theorem duplicate_final_two_cex :
    finalCount 1 (run env0 initMachine
      [.recv (.callDetails fnW), .recv (.responseRequired false 1 []),
       .recv (.responseRequired false 1 []),
       .emit 0, .emit 0, .emit 0, .emit 0]).sent = 2 ∧ (1 : Nat) < 2 := by
  refine ⟨?_, by decide⟩
  decide

theorem env0_one_final : OneFinalGen env0 := by
  intro rid tr
  show finalCount rid (genTwo rid tr) ≤ 1
  simp [genTwo, finalCount, isFinalOf, List.countP_cons, List.countP_nil]

/-- C5 as amended.  The connection-observable guarantee is at most one final
fragment per ACCEPTED response-request (plus any final fragments still
pending in pre-existing tasks), not per sequence value: each accepted
request for sequence `s` — including each duplicate — may contribute up to
one delivered final fragment for `s`. -/
theorem duplicate_request_final_bound (env : Env) (hg : TaggedGen env)
    (ho : OneFinalGen env) (s : Nat) (steps : List SchedStep) (m : Machine)
    (hcd : NoCallDetails steps) :
    finalCount s (run env m steps).sent
      ≤ finalCount s m.sent + tasksFinals s m.tasks
        + steps.countP (isRecvReqFor s) :=
  le_trans (Nat.le_add_right _ _) (finals_run_bound env hg ho s steps m hcd)

theorem duplicate_request_final_bound_witness :
    TaggedGen env0 ∧ OneFinalGen env0 ∧ NoCallDetails [SchedStep.emit 0] ∧
    finalCount 1 (run env0 mW [SchedStep.emit 0]).sent
      ≤ finalCount 1 mW.sent + tasksFinals 1 mW.tasks
        + ([SchedStep.emit 0] : List SchedStep).countP (isRecvReqFor 1) := by
  have hnc : NoCallDetails [SchedStep.emit 0] := by
    intro fn h
    simp at h
  exact ⟨env0_tagged, env0_one_final, hnc,
    duplicate_request_final_bound env0 env0_tagged env0_one_final 1
      [SchedStep.emit 0] mW hnc⟩
